import Mathlib

/-!
Shallow embedding of the OpenHands activity-monitoring core
(`src/openhands/monitoring/monitor.py` and `src/openhands/monitoring/types.py`).

Modelling conventions:
* `datetime.now()` is nondeterministic input, so every operation that reads the
  clock takes an explicit `now : ℚ` argument; durations (`total_seconds()`)
  and response times (Python floats) are modelled as exact rationals.
* `uuid.uuid4()` is modelled as a fresh-id generator: the state carries a
  counter `nextId` and `genId` turns it into a nonempty string, so distinct
  calls yield distinct nonempty ids (the property uuid4 provides).
* Python dicts keyed by strings (`self.activities`, `self.agent_metrics`,
  metadata dicts) are association lists in insertion order; `alookup`, `aset`
  and `pyDictUpdate` model `d[k]`, `d[k] = v` and `d.update(u)`.
* Python list slicing `lst[-k:]` is `pySliceLast` (note `lst[-0:]` is the
  whole list, which the model reproduces).
* `self._notify_subscribers(activity)` call sites are recorded in the state
  field `published` (the sequence of activities handed to the bus), and the
  subscriber loop itself is modelled by `notify_subscribers`, where a callback
  is a state transformer that also reports whether it raised; the `try/except
  Exception: pass` body means the loop continues regardless of that flag.
-/

/-- `ActivityType` enum from `types.py`. -/
inductive ActivityType where
  | agent_execution
  | tool_execution
  | llm_call
  | file_operation
  | command_execution
  | network_request
  | memory_operation
  | workflow_step
deriving DecidableEq, Repr

/-- `ActivityStatus` enum from `types.py`. -/
inductive ActivityStatus where
  | started
  | completed
  | failed
  | cancelled
deriving DecidableEq, Repr

/-- Metadata dict `Dict[str, Any]`: string keys, opaque string values. -/
abbrev Meta := List (String × String)

/-- `Activity` dataclass from `types.py`. -/
structure Activity where
  id : String
  type : ActivityType
  name : String
  timestamp : ℚ
  status : ActivityStatus
  metadata : Meta
  duration : Option ℚ
  parent_id : Option String
  children : List String
deriving Repr

/-- `AgentMetrics` dataclass from `types.py`. -/
structure AgentMetrics where
  agent_name : String
  tasks_completed : Nat
  tasks_failed : Nat
  average_response_time : ℚ
  tool_usage : List (String × Nat)
  token_usage : Int
deriving Repr

/-- `VisualizationConfig` dataclass from `types.py`. -/
structure VisualizationConfig where
  enabled : Bool := true
  update_interval : ℚ := 1/10
  max_history : Nat := 1000
  enable_resource_monitoring : Bool := true
  enable_agent_metrics : Bool := true
  enable_detailed_logging : Bool := false
deriving Repr

/-- The mutable `self.stats` dict of `ActivityMonitor`. -/
structure Stats where
  activities_started : Nat
  activities_completed : Nat
  activities_failed : Nat
  total_duration : ℚ
deriving DecidableEq, Repr

/-- Association-list lookup, modelling Python `k in d` / `d[k]`. -/
def alookup {β : Type} (k : String) : List (String × β) → Option β
  | [] => none
  | p :: rest => if p.1 = k then some p.2 else alookup k rest

/-- Association-list store, modelling Python `d[k] = v`: replace in place if
the key exists, append otherwise (insertion order preserved). -/
def aset {β : Type} (l : List (String × β)) (k : String) (v : β) :
    List (String × β) :=
  if (alookup k l).isSome then
    l.map (fun p => if p.1 = k then (k, v) else p)
  else
    l ++ [(k, v)]

/-- Python `d.update(u)`: store every pair of `u` into `d`, left to right. -/
def pyDictUpdate (d u : Meta) : Meta :=
  u.foldl (fun acc kv => aset acc kv.1 kv.2) d

/-- Python list slice `lst[-k:]`: the last `k` elements, except that
`lst[-0:]` is the whole list. -/
def pySliceLast {α : Type} (l : List α) (k : Nat) : List α :=
  if k = 0 then l else l.drop (l.length - k)

/-- Model of `uuid.uuid4()`: the `n`-th generated id, a nonempty string,
distinct for distinct `n`. -/
def genId (n : Nat) : String :=
  String.mk (List.replicate (n + 1) 'u')

/-- The mutable state of an `ActivityMonitor` instance. `published` records
the activities handed to `_notify_subscribers`, in call order. -/
structure MonitorState where
  config : VisualizationConfig
  activities : List (String × Activity)
  activities_history : List Activity
  agent_metrics : List (String × AgentMetrics)
  stats : Stats
  nextId : Nat
  published : List Activity
deriving Repr

/-- `ActivityMonitor.__init__` with a given config. -/
def initState (cfg : VisualizationConfig) : MonitorState :=
  { config := cfg
    activities := []
    activities_history := []
    agent_metrics := []
    stats := { activities_started := 0, activities_completed := 0,
               activities_failed := 0, total_duration := 0 }
    nextId := 0
    published := [] }

/-- `ActivityMonitor.start_activity`. Returns the new id (or `""` when the
store is disabled) together with the updated state; `now` is the value of
`datetime.now()`. -/
def start_activity (st : MonitorState) (activity_type : ActivityType)
    (name : String) (metadata : Meta) (parent_id : Option String)
    (now : ℚ) : String × MonitorState :=
  if st.config.enabled = false then ("", st)
  else
    let activity_id := genId st.nextId
    let activity : Activity :=
      { id := activity_id
        type := activity_type
        name := name
        timestamp := now
        status := ActivityStatus.started
        metadata := metadata
        duration := none
        parent_id := parent_id
        children := [] }
    (activity_id,
      { st with
          activities := st.activities ++ [(activity_id, activity)]
          stats := { st.stats with
                       activities_started := st.stats.activities_started + 1 }
          nextId := st.nextId + 1
          published := st.published ++ [activity] })

/-- The finalized activity built inside `end_activity`: status assigned,
duration computed as `now - timestamp`, metadata merged when a non-empty
metadata dict is passed (Python `if metadata:` is false for `None` and `{}`). -/
def finalizeActivity (a : Activity) (status : ActivityStatus)
    (metadata : Option Meta) (now : ℚ) : Activity :=
  let a1 := { a with status := status, duration := some (now - a.timestamp) }
  match metadata with
  | some m => if m.isEmpty then a1 else
      { a1 with metadata := pyDictUpdate a1.metadata m }
  | none => a1

/-- `ActivityMonitor.end_activity`. No-op when disabled, when the id is the
empty (falsy) string, or when the id is not in the live set. Otherwise the
activity is finalized, moved from the live set to the history tail, the
statistics are updated by status, the history is trimmed to the cap, and the
finalized activity is published. -/
def end_activity (st : MonitorState) (activity_id : String)
    (status : ActivityStatus) (metadata : Option Meta) (now : ℚ) :
    MonitorState :=
  if st.config.enabled = false ∨ activity_id = "" then st
  else
    match alookup activity_id st.activities with
    | none => st
    | some a0 =>
      let activity := finalizeActivity a0 status metadata now
      let history1 := st.activities_history ++ [activity]
      let stats1 :=
        if status = ActivityStatus.completed then
          { st.stats with
              activities_completed := st.stats.activities_completed + 1
              total_duration := st.stats.total_duration + (now - a0.timestamp) }
        else if status = ActivityStatus.failed then
          { st.stats with activities_failed := st.stats.activities_failed + 1 }
        else st.stats
      let history2 :=
        if history1.length > st.config.max_history then
          pySliceLast history1 st.config.max_history
        else history1
      { st with
          activities := st.activities.filter (fun p => p.1 ≠ activity_id)
          activities_history := history2
          stats := stats1
          published := st.published ++ [activity] }

/-- `ActivityMonitor.add_child_activity`: appends `child_id` to the parent's
children only when both ids are currently in the live set. -/
def add_child_activity (st : MonitorState) (parent_id child_id : String) :
    MonitorState :=
  if st.config.enabled = false then st
  else
    match alookup parent_id st.activities, alookup child_id st.activities with
    | some p, some _ =>
        { st with
            activities := st.activities.map (fun q =>
              if q.1 = parent_id then
                (q.1, { p with children := p.children ++ [child_id] })
              else q) }
    | _, _ => st

/-- The `metrics_update` dict of `update_agent_metrics`: each field records
whether the corresponding key is present (and its value where it is read). -/
structure MetricsUpdate where
  task_completed : Bool := false
  task_failed : Bool := false
  response_time : Option ℚ := none
  tool_used : Option String := none
  tokens_used : Option Int := none

/-- The freshly-created `AgentMetrics` record of `update_agent_metrics`
(all counters zero). -/
def freshAgentMetrics (agent_name : String) : AgentMetrics :=
  { agent_name := agent_name
    tasks_completed := 0
    tasks_failed := 0
    average_response_time := 0
    tool_usage := []
    token_usage := 0 }

/-- The entity record `update_agent_metrics` starts from: the stored record,
or a fresh all-zero record when the entity is not yet known. -/
def entityBefore (st : MonitorState) (agent_name : String) : AgentMetrics :=
  match alookup agent_name st.agent_metrics with
  | some m => m
  | none => freshAgentMetrics agent_name

/-- The body of `update_agent_metrics` applied to one entity record: the
branches in source order (completed, failed, response time with the
post-increment task total, tool usage, token usage). -/
def stepAgentMetrics (m0 : AgentMetrics) (mu : MetricsUpdate) : AgentMetrics :=
  let m1 := if mu.task_completed then
      { m0 with tasks_completed := m0.tasks_completed + 1 } else m0
  let m2 := if mu.task_failed then
      { m1 with tasks_failed := m1.tasks_failed + 1 } else m1
  let m3 :=
    match mu.response_time with
    | some sample =>
      let total_tasks := m2.tasks_completed + m2.tasks_failed
      if total_tasks > 0 then
        { m2 with average_response_time :=
            (m2.average_response_time * ((total_tasks : ℚ) - 1) + sample) /
              (total_tasks : ℚ) }
      else m2
    | none => m2
  let m4 :=
    match mu.tool_used with
    | some tool =>
      let count := (alookup tool m3.tool_usage).getD 0
      { m3 with tool_usage := aset m3.tool_usage tool (count + 1) }
    | none => m3
  match mu.tokens_used with
  | some t => { m4 with token_usage := m4.token_usage + t }
  | none => m4

/-- `ActivityMonitor.update_agent_metrics`: lazily creates the entity record,
then applies the update branches and stores the result. -/
def update_agent_metrics (st : MonitorState) (agent_name : String)
    (mu : MetricsUpdate) : MonitorState :=
  if st.config.enabled = false ∨ st.config.enable_agent_metrics = false then st
  else
    let m5 := stepAgentMetrics (entityBefore st agent_name) mu
    { st with agent_metrics := aset st.agent_metrics agent_name m5 }

/-- The completed+failed task total of an entity after the increments of the
same `update_agent_metrics` call (the `n` of the moving-average recurrence). -/
def postIncrementTotal (m0 : AgentMetrics) (mu : MetricsUpdate) : Nat :=
  (if mu.task_completed then m0.tasks_completed + 1 else m0.tasks_completed)
    + (if mu.task_failed then m0.tasks_failed + 1 else m0.tasks_failed)

/-- `ActivityMonitor.get_recent_activities`: Python `history[-limit:]`. -/
def get_recent_activities (st : MonitorState) (limit : Nat) : List Activity :=
  pySliceLast st.activities_history limit

/-- `ActivityMonitor.get_active_activities`: `list(self.activities.values())`. -/
def get_active_activities (st : MonitorState) : List Activity :=
  st.activities.map (fun p => p.2)

/-- `ActivityMonitor._notify_subscribers`: a subscriber callback is a state
transformer on an ambient world `σ` that also reports whether it raised; the
`try/except Exception: pass` around each call means delivery continues to the
remaining subscribers regardless of that flag. -/
def notify_subscribers {σ : Type} (subscribers : List (σ → Activity → σ × Bool))
    (activity : Activity) (world : σ) : σ :=
  match subscribers with
  | [] => world
  | sub :: rest => notify_subscribers rest activity (sub world activity).1

/-- One monitor operation, for stating state invariants over arbitrary
interleavings of the public mutators. -/
inductive MonOp where
  | opStart (ty : ActivityType) (name : String) (md : Meta)
      (pid : Option String) (now : ℚ)
  | opEnd (activity_id : String) (status : ActivityStatus) (md : Option Meta)
      (now : ℚ)
  | opAddChild (parent_id child_id : String)
  | opUpdateMetrics (agent : String) (mu : MetricsUpdate)

/-- Apply one operation to the state (the id returned by `start_activity` is
dropped here; it is always `genId st.nextId` when the store is enabled). -/
def applyOp (st : MonitorState) : MonOp → MonitorState
  | .opStart ty name md pid now => (start_activity st ty name md pid now).2
  | .opEnd i status md now => end_activity st i status md now
  | .opAddChild p c => add_child_activity st p c
  | .opUpdateMetrics a mu => update_agent_metrics st a mu

/-- Ids of the live set (`self.activities.keys()`), in insertion order. -/
def liveIds (st : MonitorState) : List String :=
  st.activities.map Prod.fst

/-- Ids of the history sequence, in arrival order. -/
def histIds (st : MonitorState) : List String :=
  st.activities_history.map Activity.id

/-- All ids currently held by the store. -/
def allIds (st : MonitorState) : List String :=
  liveIds st ++ histIds st

/-- Well-formedness of the id-bearing part of a monitor state (`acts` the
live set, `hist` the history, `nid` the id counter): live entries are keyed
by their activity's id, live activities have no duration yet, every stored id
was produced by the id generator below the current counter, and no id occurs
twice across live set and history. -/
structure WFcore (acts : List (String × Activity)) (hist : List Activity)
    (nid : Nat) : Prop where
  key_eq : ∀ p ∈ acts, p.1 = p.2.id
  live_duration : ∀ p ∈ acts, p.2.duration = none
  fresh : ∀ i ∈ acts.map Prod.fst ++ hist.map Activity.id,
    ∃ k, k < nid ∧ i = genId k
  nodup : (acts.map Prod.fst ++ hist.map Activity.id).Nodup

/-- Well-formedness of a monitor state, true of every state reachable from
`initState`. -/
abbrev WF (st : MonitorState) : Prop :=
  WFcore st.activities st.activities_history st.nextId

/-- One start/end round: the caller starts an activity and later ends it; the
two clock readings and the terminal status are the round's parameters. -/
structure SessionSpec where
  ty : ActivityType
  name : String
  t0 : ℚ
  t1 : ℚ
  status : ActivityStatus

/-- Run one round: `start_activity` followed by `end_activity` on the
returned id. -/
def runSession (st : MonitorState) (s : SessionSpec) : MonitorState :=
  let r := start_activity st s.ty s.name [] none s.t0
  end_activity r.2 r.1 s.status none s.t1

/-- Run a sequence of rounds left to right. -/
def runSessions (st : MonitorState) (specs : List SessionSpec) : MonitorState :=
  specs.foldl runSession st

/-- The finalized activity a round leaves in history when the store is
enabled and the round's id was allocated as `genId n`. -/
def sessionActivity (n : Nat) (s : SessionSpec) : Activity :=
  { id := genId n
    type := s.ty
    name := s.name
    timestamp := s.t0
    status := s.status
    metadata := []
    duration := some (s.t1 - s.t0)
    parent_id := none
    children := [] }

/-- The finalized activities of a round sequence whose first round draws id
`genId n`, in end-call (arrival) order. -/
def sessionActivities : Nat → List SessionSpec → List Activity
  | _, [] => []
  | n, s :: rest => sessionActivity n s :: sessionActivities (n + 1) rest

/-- A subscriber callback that records `(tag, activity id)` in a shared log
and then either returns normally or raises, according to `raises`. -/
def loggingSubscriber (tag : Nat) (raises : Bool) :
    List (Nat × String) → Activity → List (Nat × String) × Bool :=
  fun log a => (log ++ [(tag, a.id)], raises)

/-- A `metrics_update` dict carrying one response-time sample together with
exactly one task increment (completed when `b`, failed otherwise). -/
def pairedUpdate (b : Bool) (s : ℚ) : MetricsUpdate :=
  { task_completed := b, task_failed := !b, response_time := some s }

/-- Fold a sequence of paired sample/increment updates for one entity. -/
def runPairedUpdates (st : MonitorState) (agent : String)
    (calls : List (Bool × ℚ)) : MonitorState :=
  calls.foldl (fun acc c => update_agent_metrics acc agent (pairedUpdate c.1 c.2)) st

/-- Counterexample state for the exactly-one-location claim: history cap 1,
two activities started and ended; ending the second evicts the first from
history, leaving its id in neither location. -/
def c1state : MonitorState :=
  let s0 := initState { max_history := 1 }
  let r1 := start_activity s0 ActivityType.tool_execution "a" [] none 0
  let r2 := start_activity r1.2 ActivityType.tool_execution "b" [] none 0
  let s3 := end_activity r2.2 r1.1 ActivityStatus.completed none 1
  end_activity s3 r2.1 ActivityStatus.completed none 2

/-- Counterexample state for the bounded-history claim at cap 0: Python
`history[-0:]` is the whole list, so nothing is ever trimmed. -/
def c3state : MonitorState :=
  let r := start_activity (initState { max_history := 0 })
    ActivityType.llm_call "x" [] none 0
  end_activity r.2 r.1 ActivityStatus.completed none 1

/-- Counterexample state for the moving-average claim: one sample (2)
arrives with a completed increment, then a second sample (8) arrives with no
increment; the second sample still rewrites the average. -/
def c8state : MonitorState :=
  let u1 := update_agent_metrics (initState {}) "a"
    { task_completed := true, response_time := some 2 }
  update_agent_metrics u1 "a" { response_time := some 8 }

/-- Counterexample state for the recent-activities claim: a single completed
activity sits in history, then `get_recent_activities` is asked for 0 items. -/
def c9state : MonitorState :=
  let r := start_activity (initState {}) ActivityType.tool_execution "fetch"
    [] none 0
  end_activity r.2 r.1 ActivityStatus.completed none 1

/-- The record `start_activity` creates when the store is enabled and the
id counter stands at `n`. -/
def startedActivity (n : Nat) (ty : ActivityType) (name : String) (md : Meta)
    (pid : Option String) (now : ℚ) : Activity :=
  { id := genId n
    type := ty
    name := name
    timestamp := now
    status := ActivityStatus.started
    metadata := md
    duration := none
    parent_id := pid
    children := [] }

/-- A concrete enabled store holding one live activity (id `genId 0`),
used to witness the end-activity claims. -/
def startedState : MonitorState :=
  (start_activity (initState {}) ActivityType.tool_execution "t" [] none 0).2

/-! ### Association-list and slicing lemmas -/

theorem alookup_append {β : Type} (k : String) (l m : List (String × β)) :
    alookup k (l ++ m) = (alookup k l).or (alookup k m) := by
  induction l with
  | nil => simp [alookup]
  | cons p rest ih =>
    by_cases h : p.1 = k <;> simp [alookup, h, ih]

theorem alookup_eq_some_mem {β : Type} {k : String} {l : List (String × β)}
    {v : β} (h : alookup k l = some v) : (k, v) ∈ l := by
  induction l with
  | nil => simp [alookup] at h
  | cons p rest ih =>
    by_cases hp : p.1 = k
    · simp [alookup, hp] at h
      subst hp
      simp [← h]
    · simp [alookup, hp] at h
      exact List.mem_cons_of_mem _ (ih h)

theorem alookup_isSome_iff {β : Type} (k : String) (l : List (String × β)) :
    (alookup k l).isSome = true ↔ k ∈ l.map Prod.fst := by
  induction l with
  | nil => simp [alookup]
  | cons p rest ih =>
    by_cases hp : p.1 = k
    · subst hp
      simp [alookup]
    · have hne : k ≠ p.1 := fun hk => hp hk.symm
      simp [alookup, hp, hne, ih]

theorem alookup_filter_ne {β : Type} {k i : String} (l : List (String × β))
    (h : k ≠ i) :
    alookup k (l.filter (fun p => p.1 ≠ i)) = alookup k l := by
  induction l with
  | nil => simp [alookup]
  | cons p rest ih =>
    simp only [ne_eq, decide_not] at ih ⊢
    rw [List.filter_cons]
    by_cases hp : p.1 = i
    · rw [show (!decide (p.1 = i)) = false by simp [hp]]
      simp only [Bool.false_eq_true, if_false]
      rw [ih]
      have hpk : p.1 ≠ k := by
        rw [hp]
        intro hik
        exact h hik.symm
      simp [alookup, hpk]
    · rw [show (!decide (p.1 = i)) = true by simp [hp]]
      simp only [if_true]
      by_cases hk : p.1 = k
      · simp [alookup, hk]
      · simp [alookup, hk, ih]

theorem alookup_filter_self {β : Type} (i : String) (l : List (String × β)) :
    alookup i (l.filter (fun p => p.1 ≠ i)) = none := by
  induction l with
  | nil => simp [alookup]
  | cons p rest ih =>
    simp only [ne_eq, decide_not] at ih ⊢
    rw [List.filter_cons]
    by_cases hp : p.1 = i
    · rw [show (!decide (p.1 = i)) = false by simp [hp]]
      simp only [Bool.false_eq_true, if_false]
      exact ih
    · rw [show (!decide (p.1 = i)) = true by simp [hp]]
      simp only [if_true]
      simp [alookup, hp, ih]

theorem alookup_aset_self {β : Type} (l : List (String × β)) (k : String)
    (v : β) : alookup k (aset l k v) = some v := by
  unfold aset
  by_cases h : (alookup k l).isSome = true
  · simp only [h, if_true]
    induction l with
    | nil => simp [alookup] at h
    | cons p rest ih =>
      by_cases hp : p.1 = k
      · simp [alookup, hp]
      · simp only [alookup, hp, if_neg] at h
        simp [alookup, hp, ih h]
  · simp only [h]
    simp only [Bool.false_eq_true, if_false]
    rw [alookup_append]
    have : alookup k l = none := by
      cases hl : alookup k l
      · rfl
      · rw [hl] at h
        simp at h
    simp [this, alookup]

theorem keys_filter_ne {β : Type} (l : List (String × β)) (i : String) :
    (l.filter (fun p => p.1 ≠ i)).map Prod.fst
      = (l.map Prod.fst).filter (fun k => k ≠ i) := by
  induction l with
  | nil => simp
  | cons p rest ih =>
    simp only [ne_eq, decide_not] at ih ⊢
    rw [List.map_cons, List.filter_cons, List.filter_cons]
    by_cases hp : p.1 = i
    · rw [show (!decide (p.1 = i)) = false by simp [hp]]
      simp only [Bool.false_eq_true, if_false]
      exact ih
    · rw [show (!decide (p.1 = i)) = true by simp [hp]]
      simp only [if_true, List.map_cons]
      rw [ih]

theorem keys_map_update {β : Type} (l : List (String × β)) (i : String)
    (v : β) :
    (l.map (fun q => if q.1 = i then (q.1, v) else q)).map Prod.fst
      = l.map Prod.fst := by
  induction l with
  | nil => simp
  | cons p rest ih =>
    by_cases hp : p.1 = i <;> simp [hp, ih]

theorem genId_ne_empty (n : Nat) : genId n ≠ "" := by
  intro h
  have hdata := congrArg String.data h
  simp [genId] at hdata

theorem genId_inj {m n : Nat} (h : genId m = genId n) : m = n := by
  have hd := congrArg String.data h
  simp only [genId] at hd
  have := congrArg List.length hd
  simpa using this

theorem pySliceLast_of_pos {α : Type} (l : List α) {k : Nat} (hk : k ≠ 0) :
    pySliceLast l k = l.drop (l.length - k) := by
  simp [pySliceLast, hk]

theorem suffix_eq_drop {α : Type} {s t : List α} (h : s <:+ t) :
    s = t.drop (t.length - s.length) := by
  obtain ⟨p, rfl⟩ := h
  have hlen : (p ++ s).length - s.length = p.length := by
    simp
  rw [hlen, List.drop_left]

theorem suffix_append_suffix {α : Type} {s t : List α} (h : s <:+ t)
    (m : List α) : s ++ m <:+ t ++ m := by
  obtain ⟨p, rfl⟩ := h
  exact ⟨p, by simp⟩

theorem drop_last_append {α : Type} (l m : List α) (k : Nat) :
    (l.drop (l.length - k) ++ m).drop ((l.drop (l.length - k) ++ m).length - k)
      = (l ++ m).drop ((l ++ m).length - k) := by
  have hsuf : (l.drop (l.length - k) ++ m).drop
      ((l.drop (l.length - k) ++ m).length - k) <:+ l ++ m :=
    (List.drop_suffix _ _).trans (suffix_append_suffix (List.drop_suffix _ _) m)
  rw [suffix_eq_drop hsuf]
  congr 1
  simp only [List.length_drop, List.length_append]
  omega

/-! ### Characterizations of the operations -/

theorem start_activity_disabled (st : MonitorState)
    (h : st.config.enabled = false) (ty : ActivityType) (name : String)
    (md : Meta) (pid : Option String) (now : ℚ) :
    start_activity st ty name md pid now = ("", st) := by
  simp [start_activity, h]

theorem start_activity_eq (st : MonitorState)
    (hen : st.config.enabled = true) (ty : ActivityType) (name : String)
    (md : Meta) (pid : Option String) (now : ℚ) :
    start_activity st ty name md pid now =
      (genId st.nextId,
        { st with
            activities := st.activities
              ++ [(genId st.nextId, startedActivity st.nextId ty name md pid now)]
            stats := { st.stats with
                         activities_started := st.stats.activities_started + 1 }
            nextId := st.nextId + 1
            published := st.published
              ++ [startedActivity st.nextId ty name md pid now] }) := by
  rw [start_activity, if_neg (by simp [hen])]
  rfl

theorem end_activity_noop (st : MonitorState) (i : String)
    (status : ActivityStatus) (md : Option Meta) (now : ℚ)
    (h : st.config.enabled = false ∨ i = "" ∨ alookup i st.activities = none) :
    end_activity st i status md now = st := by
  rw [end_activity]
  rcases h with h | h | h
  · rw [if_pos (Or.inl h)]
  · rw [if_pos (Or.inr h)]
  · split
    · rfl
    · rw [h]

theorem end_activity_eq (st : MonitorState) {i : String} {a0 : Activity}
    (hen : st.config.enabled = true) (hi : i ≠ "")
    (hl : alookup i st.activities = some a0)
    (status : ActivityStatus) (md : Option Meta) (now : ℚ) :
    end_activity st i status md now =
      { st with
          activities := st.activities.filter (fun p => p.1 ≠ i)
          activities_history :=
            if (st.activities_history
                  ++ [finalizeActivity a0 status md now]).length
                > st.config.max_history then
              pySliceLast
                (st.activities_history ++ [finalizeActivity a0 status md now])
                st.config.max_history
            else st.activities_history ++ [finalizeActivity a0 status md now]
          stats :=
            if status = ActivityStatus.completed then
              { st.stats with
                  activities_completed := st.stats.activities_completed + 1
                  total_duration := st.stats.total_duration + (now - a0.timestamp) }
            else if status = ActivityStatus.failed then
              { st.stats with
                  activities_failed := st.stats.activities_failed + 1 }
            else st.stats
          published := st.published ++ [finalizeActivity a0 status md now] } := by
  rw [end_activity, if_neg (by simp [hen, hi]), hl]

theorem add_child_noop (st : MonitorState) (p c : String)
    (h : st.config.enabled = false ∨ alookup p st.activities = none
      ∨ alookup c st.activities = none) :
    add_child_activity st p c = st := by
  rw [add_child_activity]
  by_cases hen : st.config.enabled = false
  · rw [if_pos hen]
  · rw [if_neg hen]
    have hpc : alookup p st.activities = none ∨ alookup c st.activities = none := by
      rcases h with h | h | h
      · exact absurd h hen
      · exact Or.inl h
      · exact Or.inr h
    cases h1 : alookup p st.activities with
    | none => rfl
    | some pa =>
      cases h2 : alookup c st.activities with
      | none => rfl
      | some ca =>
        rcases hpc with h3 | h3
        · rw [h1] at h3
          cases h3
        · rw [h2] at h3
          cases h3

theorem add_child_eq (st : MonitorState) {p c : String} {pa ca : Activity}
    (hen : st.config.enabled = true)
    (hp : alookup p st.activities = some pa)
    (hc : alookup c st.activities = some ca) :
    add_child_activity st p c =
      { st with
          activities := st.activities.map (fun q =>
            if q.1 = p then (q.1, { pa with children := pa.children ++ [c] })
            else q) } := by
  rw [add_child_activity, if_neg (by simp [hen]), hp, hc]

theorem update_agent_metrics_noop (st : MonitorState) (agent : String)
    (mu : MetricsUpdate)
    (h : st.config.enabled = false ∨ st.config.enable_agent_metrics = false) :
    update_agent_metrics st agent mu = st := by
  rw [update_agent_metrics, if_pos h]

/-! ### History trimming lemmas -/

theorem trim_of_lt {α : Type} (l : List α) (x : α) {C : Nat}
    (h : l.length < C) :
    (if (l ++ [x]).length > C then pySliceLast (l ++ [x]) C else l ++ [x])
      = l ++ [x] := by
  rw [if_neg]
  simp only [List.length_append, List.length_cons, List.length_nil]
  omega

theorem trim_getLast {α : Type} (l : List α) (x : α) (C : Nat) :
    (if (l ++ [x]).length > C then pySliceLast (l ++ [x]) C
     else l ++ [x]).getLast? = some x := by
  by_cases hgt : (l ++ [x]).length > C
  · rw [if_pos hgt]
    rcases Nat.eq_zero_or_pos C with hC | hC
    · subst hC
      simp only [pySliceLast, if_pos rfl]
      exact List.getLast?_concat _
    · rw [pySliceLast_of_pos _ (Nat.pos_iff_ne_zero.mp hC)]
      rw [List.drop_append_of_le_length
        (by simp only [List.length_append, List.length_cons, List.length_nil]; omega)]
      exact List.getLast?_concat _
  · rw [if_neg hgt]
    exact List.getLast?_concat _

theorem trim_eq_drop {α : Type} (l : List α) {C : Nat} (hC : 1 ≤ C) :
    (if l.length > C then pySliceLast l C else l)
      = l.drop (l.length - C) := by
  by_cases hgt : l.length > C
  · rw [if_pos hgt, pySliceLast_of_pos _ (by omega)]
  · rw [if_neg hgt]
    have : l.length - C = 0 := by omega
    rw [this, List.drop_zero]

/-! ### Well-formedness of reachable states -/

theorem bool_eq_false {b : Bool} (h : ¬b = true) : b = false := by
  cases b
  · rfl
  · exact absurd rfl h

theorem finalize_id (a : Activity) (status : ActivityStatus)
    (md : Option Meta) (now : ℚ) :
    (finalizeActivity a status md now).id = a.id := by
  unfold finalizeActivity
  cases md
  · rfl
  · dsimp only
    split
    · rfl
    · rfl

theorem finalize_status (a : Activity) (status : ActivityStatus)
    (md : Option Meta) (now : ℚ) :
    (finalizeActivity a status md now).status = status := by
  unfold finalizeActivity
  cases md
  · rfl
  · dsimp only
    split
    · rfl
    · rfl

theorem finalize_duration (a : Activity) (status : ActivityStatus)
    (md : Option Meta) (now : ℚ) :
    (finalizeActivity a status md now).duration = some (now - a.timestamp) := by
  unfold finalizeActivity
  cases md
  · rfl
  · dsimp only
    split
    · rfl
    · rfl

theorem pySliceLast_suffix {α : Type} (l : List α) (C : Nat) :
    pySliceLast l C <:+ l := by
  unfold pySliceLast
  split
  · exact List.suffix_refl l
  · exact List.drop_suffix _ _

theorem trim_suffix {α : Type} (l : List α) (C : Nat) :
    (if l.length > C then pySliceLast l C else l) <:+ l := by
  split
  · exact pySliceLast_suffix l C
  · exact List.suffix_refl l

theorem wf_initState (cfg : VisualizationConfig) : WF (initState cfg) := by
  constructor <;> simp [initState]

theorem wfcore_not_mem {acts : List (String × Activity)} {hist : List Activity}
    {nid : Nat} (h : WFcore acts hist nid) :
    genId nid ∉ acts.map Prod.fst ++ hist.map Activity.id := by
  intro hmem
  obtain ⟨k, hk, he⟩ := h.fresh _ hmem
  have := genId_inj he
  omega

theorem wfcore_start {acts : List (String × Activity)} {hist : List Activity}
    {nid : Nat} (h : WFcore acts hist nid) (a : Activity)
    (hid : a.id = genId nid) (hdur : a.duration = none) :
    WFcore (acts ++ [(genId nid, a)]) hist (nid + 1) := by
  have hkeys : (acts ++ [(genId nid, a)]).map Prod.fst
      = acts.map Prod.fst ++ [genId nid] := by simp
  constructor
  · intro p hp
    rcases List.mem_append.mp hp with h1 | h1
    · exact h.key_eq p h1
    · have hpe : p = (genId nid, a) := by simpa using h1
      subst hpe
      exact hid.symm
  · intro p hp
    rcases List.mem_append.mp hp with h1 | h1
    · exact h.live_duration p h1
    · have hpe : p = (genId nid, a) := by simpa using h1
      subst hpe
      exact hdur
  · intro i hi
    rw [hkeys] at hi
    rcases List.mem_append.mp hi with h1 | h1
    · rcases List.mem_append.mp h1 with h2 | h2
      · obtain ⟨k, hk, he⟩ := h.fresh i (List.mem_append.mpr (Or.inl h2))
        exact ⟨k, by omega, he⟩
      · have : i = genId nid := by simpa using h2
        exact ⟨nid, by omega, this⟩
    · obtain ⟨k, hk, he⟩ := h.fresh i (List.mem_append.mpr (Or.inr h1))
      exact ⟨k, by omega, he⟩
  · rw [hkeys, List.append_assoc, List.singleton_append, List.nodup_middle]
    exact List.nodup_cons.mpr ⟨wfcore_not_mem h, h.nodup⟩

theorem wfcore_end {acts : List (String × Activity)} {hist : List Activity}
    {nid : Nat} {i : String} {a0 : Activity} (h : WFcore acts hist nid)
    (hl : alookup i acts = some a0) (x : Activity) (hx : x.id = i)
    {hist2 : List Activity} (hsuf : hist2 <:+ hist ++ [x]) :
    WFcore (acts.filter (fun p => p.1 ≠ i)) hist2 nid := by
  have hi_live : i ∈ acts.map Prod.fst := by
    rw [← alookup_isSome_iff, hl]
    rfl
  have hkeys := keys_filter_ne acts i
  have hists : hist2.map Activity.id <:+ hist.map Activity.id ++ [i] := by
    obtain ⟨pre, hpre⟩ := hsuf
    refine ⟨pre.map Activity.id, ?_⟩
    rw [← List.map_append, hpre]
    simp [hx]
  have hdisj : (acts.map Prod.fst).Disjoint (hist.map Activity.id) :=
    List.disjoint_of_nodup_append h.nodup
  have hlive_nodup : (acts.map Prod.fst).Nodup :=
    (List.nodup_append.mp h.nodup).1
  have hhist_nodup : (hist.map Activity.id).Nodup :=
    (List.nodup_append.mp h.nodup).2.1
  have hi_not_hist : i ∉ hist.map Activity.id := fun hmem => hdisj hi_live hmem
  constructor
  · intro p hp
    exact h.key_eq p (List.mem_of_mem_filter hp)
  · intro p hp
    exact h.live_duration p (List.mem_of_mem_filter hp)
  · intro j hj
    rcases List.mem_append.mp hj with h1 | h1
    · have h2 : j ∈ acts.map Prod.fst := by
        rw [hkeys] at h1
        exact List.mem_of_mem_filter h1
      exact h.fresh j (List.mem_append.mpr (Or.inl h2))
    · have h2 : j ∈ hist.map Activity.id ++ [i] := hists.sublist.subset h1
      rcases List.mem_append.mp h2 with h3 | h3
      · exact h.fresh j (List.mem_append.mpr (Or.inr h3))
      · have hji : j = i := by simpa using h3
        subst hji
        exact h.fresh j (List.mem_append.mpr (Or.inl hi_live))
  · have hfull : (hist.map Activity.id ++ [i]).Nodup := by
      rw [List.nodup_append]
      refine ⟨hhist_nodup, List.nodup_singleton i, ?_⟩
      intro x1 hx1 hx2
      have : x1 = i := by simpa using hx2
      subst this
      exact hi_not_hist hx1
    have hhist2_nodup : (hist2.map Activity.id).Nodup :=
      List.Nodup.sublist hists.sublist hfull
    rw [List.nodup_append]
    refine ⟨?_, hhist2_nodup, ?_⟩
    · rw [hkeys]
      exact hlive_nodup.filter _
    · intro j hj1 hj2
      rw [hkeys] at hj1
      have hj_live : j ∈ acts.map Prod.fst := List.mem_of_mem_filter hj1
      have hj_ne : j ≠ i := by
        have := (List.mem_filter.mp hj1).2
        simpa using this
      have hj_in : j ∈ hist.map Activity.id ++ [i] := hists.sublist.subset hj2
      rcases List.mem_append.mp hj_in with h3 | h3
      · exact hdisj hj_live h3
      · have : j = i := by simpa using h3
        exact hj_ne this

theorem wfcore_addchild {acts : List (String × Activity)}
    {hist : List Activity} {nid : Nat} {p : String} {pa : Activity}
    (h : WFcore acts hist nid) (hp : alookup p acts = some pa) (c : String) :
    WFcore (acts.map (fun q =>
      if q.1 = p then (q.1, { pa with children := pa.children ++ [c] })
      else q)) hist nid := by
  have hpa_mem : (p, pa) ∈ acts := alookup_eq_some_mem hp
  have hpa_id : p = pa.id := h.key_eq _ hpa_mem
  have hkeys := keys_map_update acts p
    ({ pa with children := pa.children ++ [c] })
  have hkeys2 : (acts.map (fun q =>
      if q.1 = p then (q.1, { pa with children := pa.children ++ [c] })
      else q)).map Prod.fst = acts.map Prod.fst := hkeys
  constructor
  · intro q hq
    rcases List.mem_map.mp hq with ⟨q0, hq0, heq⟩
    by_cases hcond : q0.1 = p
    · rw [if_pos hcond] at heq
      subst heq
      show q0.1 = pa.id
      rw [hcond, hpa_id]
    · rw [if_neg hcond] at heq
      subst heq
      exact h.key_eq q0 hq0
  · intro q hq
    rcases List.mem_map.mp hq with ⟨q0, hq0, heq⟩
    by_cases hcond : q0.1 = p
    · rw [if_pos hcond] at heq
      subst heq
      show pa.duration = none
      exact h.live_duration _ hpa_mem
    · rw [if_neg hcond] at heq
      subst heq
      exact h.live_duration q0 hq0
  · intro j hj
    rw [hkeys2] at hj
    exact h.fresh j hj
  · rw [hkeys2]
    exact h.nodup

theorem wf_start (st : MonitorState) (hwf : WF st) (ty : ActivityType)
    (name : String) (md : Meta) (pid : Option String) (now : ℚ) :
    WF (start_activity st ty name md pid now).2 := by
  by_cases hen : st.config.enabled = true
  · rw [start_activity_eq st hen]
    exact wfcore_start hwf (startedActivity st.nextId ty name md pid now) rfl rfl
  · rw [start_activity_disabled st (bool_eq_false hen)]
    exact hwf

theorem wf_end (st : MonitorState) (hwf : WF st) (i : String)
    (status : ActivityStatus) (md : Option Meta) (now : ℚ) :
    WF (end_activity st i status md now) := by
  by_cases hen : st.config.enabled = true
  · by_cases hi : i = ""
    · rw [end_activity_noop st i status md now (Or.inr (Or.inl hi))]
      exact hwf
    · cases hl : alookup i st.activities with
      | none =>
        rw [end_activity_noop st i status md now (Or.inr (Or.inr hl))]
        exact hwf
      | some a0 =>
        rw [end_activity_eq st hen hi hl status md now]
        have hx : (finalizeActivity a0 status md now).id = i := by
          rw [finalize_id]
          exact (hwf.key_eq _ (alookup_eq_some_mem hl)).symm
        exact wfcore_end hwf hl _ hx (trim_suffix _ _)
  · rw [end_activity_noop st i status md now (Or.inl (bool_eq_false hen))]
    exact hwf

theorem wf_addChild (st : MonitorState) (hwf : WF st) (p c : String) :
    WF (add_child_activity st p c) := by
  by_cases hen : st.config.enabled = true
  · cases hp : alookup p st.activities with
    | none =>
      rw [add_child_noop st p c (Or.inr (Or.inl hp))]
      exact hwf
    | some pa =>
      cases hc : alookup c st.activities with
      | none =>
        rw [add_child_noop st p c (Or.inr (Or.inr hc))]
        exact hwf
      | some ca =>
        rw [add_child_eq st hen hp hc]
        exact wfcore_addchild hwf hp c
  · rw [add_child_noop st p c (Or.inl (bool_eq_false hen))]
    exact hwf

theorem wf_update (st : MonitorState) (hwf : WF st) (agent : String)
    (mu : MetricsUpdate) : WF (update_agent_metrics st agent mu) := by
  unfold update_agent_metrics
  split
  · exact hwf
  · exact hwf

theorem wf_applyOp (st : MonitorState) (hwf : WF st) (op : MonOp) :
    WF (applyOp st op) := by
  cases op with
  | opStart ty name md pid now => exact wf_start st hwf ty name md pid now
  | opEnd i status md now => exact wf_end st hwf i status md now
  | opAddChild p c => exact wf_addChild st hwf p c
  | opUpdateMetrics a mu => exact wf_update st hwf a mu

theorem update_agent_metrics_eq (st : MonitorState) (agent : String)
    (mu : MetricsUpdate) (hen : st.config.enabled = true)
    (hm : st.config.enable_agent_metrics = true) :
    update_agent_metrics st agent mu
      = { st with
          agent_metrics := aset st.agent_metrics agent
            (stepAgentMetrics (entityBefore st agent) mu) } := by
  rw [update_agent_metrics, if_neg (by simp [hen, hm])]

theorem update_config (st : MonitorState) (agent : String) (mu : MetricsUpdate) :
    (update_agent_metrics st agent mu).config = st.config := by
  unfold update_agent_metrics
  split
  · rfl
  · rfl

theorem step_tasks_completed (m0 : AgentMetrics) (mu : MetricsUpdate) :
    (stepAgentMetrics m0 mu).tasks_completed
      = if mu.task_completed then m0.tasks_completed + 1
        else m0.tasks_completed := by
  unfold stepAgentMetrics
  cases mu.response_time <;> cases mu.tool_used <;> cases mu.tokens_used <;>
    cases mu.task_completed <;> cases mu.task_failed <;>
      (dsimp only; repeat' split) <;> rfl

theorem step_tasks_failed (m0 : AgentMetrics) (mu : MetricsUpdate) :
    (stepAgentMetrics m0 mu).tasks_failed
      = if mu.task_failed then m0.tasks_failed + 1 else m0.tasks_failed := by
  unfold stepAgentMetrics
  cases mu.response_time <;> cases mu.tool_used <;> cases mu.tokens_used <;>
    cases mu.task_completed <;> cases mu.task_failed <;>
      (dsimp only; repeat' split) <;> rfl

theorem step_average (m0 : AgentMetrics) (mu : MetricsUpdate) (s : ℚ)
    (hrt : mu.response_time = some s) :
    (stepAgentMetrics m0 mu).average_response_time =
      if postIncrementTotal m0 mu = 0 then m0.average_response_time
      else (m0.average_response_time * ((postIncrementTotal m0 mu : ℚ) - 1) + s)
            / (postIncrementTotal m0 mu : ℚ) := by
  unfold stepAgentMetrics postIncrementTotal
  rw [hrt]
  cases mu.tool_used <;> cases mu.tokens_used <;>
    cases mu.task_completed <;> cases mu.task_failed <;> dsimp only <;>
      simp only [eq_self_iff_true, Bool.false_eq_true, if_true, if_false] <;>
      (split <;> split <;> first | rfl | omega)

/-! ### Claim theorems -/

/-- C2: when `update_agent_metrics` is called (with the store and agent
metrics enabled) and the delta carries a response-time sample `s`, the
entity's stored `average_response_time` becomes
`(old_avg * (n - 1) + s) / n`, where `n` is the completed+failed total after
the increments of the same call; when that total is `0` the sample is
discarded and the average is unchanged. -/
theorem C2_response_time_update (st : MonitorState) (agent : String)
    (mu : MetricsUpdate) (s : ℚ) (hen : st.config.enabled = true)
    (hm : st.config.enable_agent_metrics = true)
    (hrt : mu.response_time = some s) :
    ∃ m1, alookup agent (update_agent_metrics st agent mu).agent_metrics
        = some m1
      ∧ m1.average_response_time =
          (if postIncrementTotal (entityBefore st agent) mu = 0 then
            (entityBefore st agent).average_response_time
          else
            ((entityBefore st agent).average_response_time
                * ((postIncrementTotal (entityBefore st agent) mu : ℚ) - 1) + s)
              / (postIncrementTotal (entityBefore st agent) mu : ℚ)) := by
  rw [update_agent_metrics_eq st agent mu hen hm]
  exact ⟨stepAgentMetrics (entityBefore st agent) mu,
    alookup_aset_self _ _ _, step_average _ _ s hrt⟩

/-- Witness for C2 at a concrete input: the store starts fresh, one call
carries a completed increment together with sample 4. -/
theorem C2_response_time_update_witness :
    ∃ m1, alookup "a" (update_agent_metrics (initState {}) "a"
        { task_completed := true, response_time := some 4 }).agent_metrics
        = some m1
      ∧ m1.average_response_time =
          (if postIncrementTotal (entityBefore (initState {}) "a")
              { task_completed := true, response_time := some 4 } = 0 then
            (entityBefore (initState {}) "a").average_response_time
          else
            ((entityBefore (initState {}) "a").average_response_time
                * ((postIncrementTotal (entityBefore (initState {}) "a")
                    { task_completed := true, response_time := some 4 } : ℚ) - 1)
                + 4)
              / (postIncrementTotal (entityBefore (initState {}) "a")
                  { task_completed := true, response_time := some 4 } : ℚ)) :=
  C2_response_time_update (initState {}) "a"
    { task_completed := true, response_time := some 4 } 4 rfl rfl rfl

/-- C5: with the enabled flag off, `start_activity` returns the empty
sentinel id and leaves the state untouched, and `end_activity`,
`add_child_activity` and `update_agent_metrics` are exact no-ops — so there
is no live-set or history growth, no counter change, no agent-metrics change
and no published notification. -/
theorem C5_disabled_noop (st : MonitorState) (hdis : st.config.enabled = false)
    (ty : ActivityType) (name : String) (md : Meta) (pid : Option String)
    (now : ℚ) (i : String) (status : ActivityStatus) (md2 : Option Meta)
    (now2 : ℚ) (p c agent : String) (mu : MetricsUpdate) :
    start_activity st ty name md pid now = ("", st)
    ∧ end_activity st i status md2 now2 = st
    ∧ add_child_activity st p c = st
    ∧ update_agent_metrics st agent mu = st :=
  ⟨start_activity_disabled st hdis ty name md pid now,
   end_activity_noop st i status md2 now2 (Or.inl hdis),
   add_child_noop st p c (Or.inl hdis),
   update_agent_metrics_noop st agent mu (Or.inl hdis)⟩

/-- Witness for C5 on a concrete disabled store. -/
theorem C5_disabled_noop_witness :
    start_activity (initState { enabled := false })
        ActivityType.tool_execution "t" [] none 0
      = ("", initState { enabled := false })
    ∧ end_activity (initState { enabled := false }) "u"
        ActivityStatus.completed none 1 = initState { enabled := false }
    ∧ add_child_activity (initState { enabled := false }) "u" "uu"
      = initState { enabled := false }
    ∧ update_agent_metrics (initState { enabled := false }) "a" {}
      = initState { enabled := false } :=
  C5_disabled_noop (initState { enabled := false }) rfl
    ActivityType.tool_execution "t" [] none 0 "u" ActivityStatus.completed
    none 1 "u" "uu" "a" {}

/-- C6: `end_activity` on an empty or unknown id leaves the state unchanged
(and, being total, raises nothing), and `add_child_activity` is a no-op
whenever the parent or the child is not currently live. -/
theorem C6_misuse_noop (st : MonitorState) (i : String)
    (status : ActivityStatus) (md : Option Meta) (now : ℚ) (p c : String)
    (hi : i = "" ∨ alookup i st.activities = none)
    (hpc : alookup p st.activities = none ∨ alookup c st.activities = none) :
    end_activity st i status md now = st ∧ add_child_activity st p c = st :=
  ⟨end_activity_noop st i status md now
     (Or.inr (hi.imp id (fun h => h))),
   add_child_noop st p c (Or.inr hpc)⟩

/-- Witness for C6: ending the empty id and attaching a child to an unknown
parent on a fresh enabled store. -/
theorem C6_misuse_noop_witness :
    end_activity (initState {}) "" ActivityStatus.completed none 1
        = initState {}
    ∧ add_child_activity (initState {}) "u" "uu" = initState {} :=
  C6_misuse_noop (initState {}) "" ActivityStatus.completed none 1 "u" "uu"
    (Or.inl rfl) (Or.inl rfl)

/-- C7: `_notify_subscribers` invokes every registered callback synchronously
in registration order, and a callback that raises is swallowed, so every
remaining subscriber still receives the event: with logging subscribers
carrying arbitrary raise flags, the final log always gains one entry per
subscriber, tagged in registration order. -/
theorem C7_subscriber_isolation (subs : List (Nat × Bool)) (a : Activity)
    (log : List (Nat × String)) :
    notify_subscribers (subs.map (fun p => loggingSubscriber p.1 p.2)) a log
      = log ++ subs.map (fun p => (p.1, a.id)) := by
  induction subs generalizing log with
  | nil => simp [notify_subscribers]
  | cons s rest ih =>
    simp only [List.map_cons, notify_subscribers, loggingSubscriber]
    rw [ih]
    simp

/-- C9 (amended): for every positive limit, `get_recent_activities` returns
exactly the newest `limit` entries of the history (a suffix, hence
most-recent-last and never more than `limit` entries). -/
theorem C9_recent_limit (st : MonitorState) (limit : Nat) (h : 1 ≤ limit) :
    get_recent_activities st limit
      = st.activities_history.drop (st.activities_history.length - limit)
    ∧ (get_recent_activities st limit).length ≤ limit
    ∧ get_recent_activities st limit <:+ st.activities_history := by
  have he : get_recent_activities st limit
      = st.activities_history.drop (st.activities_history.length - limit) := by
    rw [get_recent_activities]
    exact pySliceLast_of_pos _ (by omega)
  refine ⟨he, ?_, ?_⟩
  · rw [he, List.length_drop]
    omega
  · rw [he]
    exact List.drop_suffix _ _

/-- Witness for C9 (amended) at limit 1 on a concrete store. -/
theorem C9_recent_limit_witness :
    get_recent_activities c9state 1
      = c9state.activities_history.drop (c9state.activities_history.length - 1)
    ∧ (get_recent_activities c9state 1).length ≤ 1
    ∧ get_recent_activities c9state 1 <:+ c9state.activities_history :=
  C9_recent_limit c9state 1 (by decide)

/-- Counterexample to C9 as stated: with limit 0 (a non-negative limit) and
one entry in history, `get_recent_activities` returns the whole history —
one entry, which is more than the requested 0. -/
theorem C9_counterexample :
    (get_recent_activities c9state 0).length = 1
    ∧ ¬((get_recent_activities c9state 0).length ≤ 0) := by
  constructor
  · rfl
  · intro h
    simp only [show (get_recent_activities c9state 0).length = 1 from rfl] at h
    omega

theorem wf_live_ne_empty {st : MonitorState} {i : String} {a : Activity}
    (hwf : WF st) (hl : alookup i st.activities = some a) : i ≠ "" := by
  have hmem : i ∈ st.activities.map Prod.fst := by
    rw [← alookup_isSome_iff, hl]
    rfl
  obtain ⟨k, hk, he⟩ := hwf.fresh i (List.mem_append.mpr (Or.inl hmem))
  rw [he]
  exact genId_ne_empty k

/-- C4: a live activity's duration is unset; `end_activity` records duration
`now - started_at` exactly once (the history tail holds the finalized record
with that duration), and a second `end_activity` call on the same id — with
any status, metadata and clock — changes nothing. -/
theorem C4_single_duration (st : MonitorState) (i : String) (a : Activity)
    (status : ActivityStatus) (md : Option Meta) (now : ℚ)
    (status2 : ActivityStatus) (md2 : Option Meta) (now2 : ℚ)
    (hwf : WF st) (hen : st.config.enabled = true)
    (hl : alookup i st.activities = some a) :
    a.duration = none
    ∧ (finalizeActivity a status md now).duration = some (now - a.timestamp)
    ∧ (end_activity st i status md now).activities_history.getLast?
        = some (finalizeActivity a status md now)
    ∧ end_activity (end_activity st i status md now) i status2 md2 now2
        = end_activity st i status md now := by
  have hi : i ≠ "" := wf_live_ne_empty hwf hl
  refine ⟨hwf.live_duration _ (alookup_eq_some_mem hl),
    finalize_duration a status md now, ?_, ?_⟩
  · rw [end_activity_eq st hen hi hl status md now]
    exact trim_getLast _ _ _
  · apply end_activity_noop
    refine Or.inr (Or.inr ?_)
    rw [end_activity_eq st hen hi hl status md now]
    exact alookup_filter_self i st.activities

/-- Witness for C4 on a concrete store holding one live activity. -/
theorem C4_single_duration_witness :
    (startedActivity 0 ActivityType.tool_execution "t" [] none 0).duration
        = none
    ∧ (finalizeActivity (startedActivity 0 ActivityType.tool_execution "t" [] none 0)
        ActivityStatus.completed none 1).duration
        = some (1 - (startedActivity 0 ActivityType.tool_execution "t" [] none 0).timestamp)
    ∧ (end_activity startedState (genId 0) ActivityStatus.completed none 1).activities_history.getLast?
        = some (finalizeActivity
            (startedActivity 0 ActivityType.tool_execution "t" [] none 0)
            ActivityStatus.completed none 1)
    ∧ end_activity
        (end_activity startedState (genId 0) ActivityStatus.completed none 1)
        (genId 0) ActivityStatus.failed none 2
        = end_activity startedState (genId 0) ActivityStatus.completed none 1 :=
  C4_single_duration startedState (genId 0)
    (startedActivity 0 ActivityType.tool_execution "t" [] none 0)
    ActivityStatus.completed none 1 ActivityStatus.failed none 2
    (wf_start (initState {}) (wf_initState {}) ActivityType.tool_execution
      "t" [] none 0)
    rfl rfl

/-- C10: ending a live activity as `cancelled` leaves all four global
statistics unchanged while still moving the record to history with its
duration assigned; a `completed` end bumps the completed counter and adds the
duration to `total_duration`, and a `failed` end bumps only the failed
counter. -/
theorem C10_cancel_frame (st : MonitorState) (i : String) (a : Activity)
    (md : Option Meta) (now : ℚ) (hwf : WF st)
    (hen : st.config.enabled = true)
    (hl : alookup i st.activities = some a) :
    (end_activity st i ActivityStatus.cancelled md now).stats = st.stats
    ∧ alookup i (end_activity st i ActivityStatus.cancelled md now).activities
        = none
    ∧ (end_activity st i ActivityStatus.cancelled md now).activities_history.getLast?
        = some (finalizeActivity a ActivityStatus.cancelled md now)
    ∧ (finalizeActivity a ActivityStatus.cancelled md now).status
        = ActivityStatus.cancelled
    ∧ (finalizeActivity a ActivityStatus.cancelled md now).duration
        = some (now - a.timestamp)
    ∧ (end_activity st i ActivityStatus.completed md now).stats
        = { st.stats with
            activities_completed := st.stats.activities_completed + 1
            total_duration := st.stats.total_duration + (now - a.timestamp) }
    ∧ (end_activity st i ActivityStatus.failed md now).stats
        = { st.stats with
            activities_failed := st.stats.activities_failed + 1 } := by
  have hi : i ≠ "" := wf_live_ne_empty hwf hl
  refine ⟨?_, ?_, ?_, finalize_status a ActivityStatus.cancelled md now,
    finalize_duration a ActivityStatus.cancelled md now, ?_, ?_⟩
  · rw [end_activity_eq st hen hi hl ActivityStatus.cancelled md now]
    rfl
  · rw [end_activity_eq st hen hi hl ActivityStatus.cancelled md now]
    exact alookup_filter_self i st.activities
  · rw [end_activity_eq st hen hi hl ActivityStatus.cancelled md now]
    exact trim_getLast _ _ _
  · rw [end_activity_eq st hen hi hl ActivityStatus.completed md now]
    rfl
  · rw [end_activity_eq st hen hi hl ActivityStatus.failed md now]
    rfl

/-- Witness for C10 on a concrete store holding one live activity. -/
theorem C10_cancel_frame_witness :
    (end_activity startedState (genId 0) ActivityStatus.cancelled none 1).stats
        = startedState.stats
    ∧ alookup (genId 0)
        (end_activity startedState (genId 0) ActivityStatus.cancelled none 1).activities
        = none
    ∧ (end_activity startedState (genId 0) ActivityStatus.cancelled none 1).activities_history.getLast?
        = some (finalizeActivity
            (startedActivity 0 ActivityType.tool_execution "t" [] none 0)
            ActivityStatus.cancelled none 1)
    ∧ (finalizeActivity
        (startedActivity 0 ActivityType.tool_execution "t" [] none 0)
        ActivityStatus.cancelled none 1).status = ActivityStatus.cancelled
    ∧ (finalizeActivity
        (startedActivity 0 ActivityType.tool_execution "t" [] none 0)
        ActivityStatus.cancelled none 1).duration
        = some (1 - (startedActivity 0 ActivityType.tool_execution "t" [] none 0).timestamp)
    ∧ (end_activity startedState (genId 0) ActivityStatus.completed none 1).stats
        = { startedState.stats with
            activities_completed := startedState.stats.activities_completed + 1
            total_duration := startedState.stats.total_duration
              + (1 - (startedActivity 0 ActivityType.tool_execution "t" [] none 0).timestamp) }
    ∧ (end_activity startedState (genId 0) ActivityStatus.failed none 1).stats
        = { startedState.stats with
            activities_failed := startedState.stats.activities_failed + 1 } :=
  C10_cancel_frame startedState (genId 0)
    (startedActivity 0 ActivityType.tool_execution "t" [] none 0) none 1
    (wf_start (initState {}) (wf_initState {}) ActivityType.tool_execution
      "t" [] none 0)
    rfl rfl

/-! ### Live/history id tracking per operation -/

theorem start_liveIds (st : MonitorState) (hen : st.config.enabled = true)
    (ty : ActivityType) (name : String) (md : Meta) (pid : Option String)
    (now : ℚ) :
    liveIds (start_activity st ty name md pid now).2
      = liveIds st ++ [genId st.nextId] := by
  rw [start_activity_eq st hen ty name md pid now]
  simp [liveIds]

theorem start_histIds (st : MonitorState) (hen : st.config.enabled = true)
    (ty : ActivityType) (name : String) (md : Meta) (pid : Option String)
    (now : ℚ) :
    histIds (start_activity st ty name md pid now).2 = histIds st := by
  rw [start_activity_eq st hen ty name md pid now]
  rfl

theorem end_liveIds (st : MonitorState) {i : String} {a0 : Activity}
    (hen : st.config.enabled = true) (hi : i ≠ "")
    (hl : alookup i st.activities = some a0) (status : ActivityStatus)
    (md : Option Meta) (now : ℚ) :
    liveIds (end_activity st i status md now)
      = (liveIds st).filter (fun k => k ≠ i) := by
  rw [end_activity_eq st hen hi hl status md now]
  exact keys_filter_ne st.activities i

theorem end_histIds (st : MonitorState) {i : String} {a0 : Activity}
    (hen : st.config.enabled = true) (hi : i ≠ "")
    (hl : alookup i st.activities = some a0) (status : ActivityStatus)
    (md : Option Meta) (now : ℚ) (hwf : WF st)
    (hcap : st.activities_history.length < st.config.max_history) :
    histIds (end_activity st i status md now) = histIds st ++ [i] := by
  rw [end_activity_eq st hen hi hl status md now]
  show ((if (st.activities_history
        ++ [finalizeActivity a0 status md now]).length > st.config.max_history
      then pySliceLast (st.activities_history
        ++ [finalizeActivity a0 status md now]) st.config.max_history
      else st.activities_history
        ++ [finalizeActivity a0 status md now]).map Activity.id) = _
  rw [trim_of_lt _ _ hcap, List.map_append]
  simp only [List.map_cons, List.map_nil, finalize_id]
  rw [← hwf.key_eq _ (alookup_eq_some_mem hl)]
  rfl

theorem addchild_liveIds (st : MonitorState) {p c : String} {pa ca : Activity}
    (hen : st.config.enabled = true)
    (hp : alookup p st.activities = some pa)
    (hc : alookup c st.activities = some ca) :
    liveIds (add_child_activity st p c) = liveIds st := by
  rw [add_child_eq st hen hp hc]
  exact keys_map_update st.activities p _

theorem addchild_histIds (st : MonitorState) {p c : String} {pa ca : Activity}
    (hen : st.config.enabled = true)
    (hp : alookup p st.activities = some pa)
    (hc : alookup c st.activities = some ca) :
    histIds (add_child_activity st p c) = histIds st := by
  rw [add_child_eq st hen hp hc]
  rfl

theorem update_liveIds (st : MonitorState) (agent : String)
    (mu : MetricsUpdate) :
    liveIds (update_agent_metrics st agent mu) = liveIds st := by
  unfold update_agent_metrics
  split
  · rfl
  · rfl

theorem update_histIds (st : MonitorState) (agent : String)
    (mu : MetricsUpdate) :
    histIds (update_agent_metrics st agent mu) = histIds st := by
  unfold update_agent_metrics
  split
  · rfl
  · rfl

/-- Counterexample to C1 as stated: with history cap 1 and the store enabled,
the id handed out by the first `start_activity` is, after two end calls, in
neither the live set nor the history — the cap trim evicted it. -/
theorem C1_counterexample :
    (start_activity (initState { max_history := 1 })
        ActivityType.tool_execution "a" [] none 0).1 = genId 0
    ∧ (initState { max_history := 1 } : MonitorState).config.enabled = true
    ∧ alookup (genId 0) c1state.activities = none
    ∧ genId 0 ∉ c1state.activities_history.map Activity.id := by
  refine ⟨rfl, rfl, rfl, ?_⟩
  intro hmem
  rw [show c1state.activities_history.map Activity.id = [genId 1] from rfl]
    at hmem
  have h01 : genId 0 = genId 1 := by simpa using hmem
  have := genId_inj h01
  omega

theorem end_nextId (st : MonitorState) (j : String) (status : ActivityStatus)
    (md : Option Meta) (now : ℚ) :
    (end_activity st j status md now).nextId = st.nextId := by
  by_cases hen : st.config.enabled = true
  · by_cases hj : j = ""
    · rw [end_activity_noop st j status md now (Or.inr (Or.inl hj))]
    · cases hla : alookup j st.activities with
      | none => rw [end_activity_noop st j status md now (Or.inr (Or.inr hla))]
      | some aj =>
        rw [end_activity_eq st hen hj hla status md now]
  · rw [end_activity_noop st j status md now (Or.inl (bool_eq_false hen))]

theorem addchild_nextId (st : MonitorState) (p c : String) :
    (add_child_activity st p c).nextId = st.nextId := by
  by_cases hen : st.config.enabled = true
  · cases hp : alookup p st.activities with
    | none => rw [add_child_noop st p c (Or.inr (Or.inl hp))]
    | some pa =>
      cases hc : alookup c st.activities with
      | none => rw [add_child_noop st p c (Or.inr (Or.inr hc))]
      | some ca => rw [add_child_eq st hen hp hc]
  · rw [add_child_noop st p c (Or.inl (bool_eq_false hen))]

theorem update_nextId (st : MonitorState) (agent : String)
    (mu : MetricsUpdate) :
    (update_agent_metrics st agent mu).nextId = st.nextId := by
  unfold update_agent_metrics
  split
  · rfl
  · rfl

theorem applyOp_nextId_mono (st : MonitorState) (op : MonOp) :
    st.nextId ≤ (applyOp st op).nextId := by
  cases op with
  | opStart ty name md pid now =>
    simp only [applyOp]
    by_cases hen : st.config.enabled = true
    · rw [start_activity_eq st hen ty name md pid now]
      exact Nat.le_succ _
    · rw [start_activity_disabled st (bool_eq_false hen)]
  | opEnd j status md now =>
    simp only [applyOp]
    rw [end_nextId]
  | opAddChild p c =>
    simp only [applyOp]
    rw [addchild_nextId]
  | opUpdateMetrics agent mu =>
    simp only [applyOp]
    rw [update_nextId]

theorem end_liveIds_subset (st : MonitorState) (j : String)
    (status : ActivityStatus) (md : Option Meta) (now : ℚ) (x : String)
    (hx : x ∈ liveIds (end_activity st j status md now)) : x ∈ liveIds st := by
  by_cases hen : st.config.enabled = true
  · by_cases hj : j = ""
    · rw [end_activity_noop st j status md now (Or.inr (Or.inl hj))] at hx
      exact hx
    · cases hla : alookup j st.activities with
      | none =>
        rw [end_activity_noop st j status md now (Or.inr (Or.inr hla))] at hx
        exact hx
      | some aj =>
        rw [end_liveIds st hen hj hla status md now] at hx
        exact (List.mem_filter.mp hx).1
  · rw [end_activity_noop st j status md now (Or.inl (bool_eq_false hen))] at hx
    exact hx

theorem addchild_liveIds_all (st : MonitorState) (p c : String) :
    liveIds (add_child_activity st p c) = liveIds st := by
  by_cases hen : st.config.enabled = true
  · cases hp : alookup p st.activities with
    | none => rw [add_child_noop st p c (Or.inr (Or.inl hp))]
    | some pa =>
      cases hc : alookup c st.activities with
      | none => rw [add_child_noop st p c (Or.inr (Or.inr hc))]
      | some ca => exact addchild_liveIds st hen hp hc
  · rw [add_child_noop st p c (Or.inl (bool_eq_false hen))]

theorem addchild_histIds_all (st : MonitorState) (p c : String) :
    histIds (add_child_activity st p c) = histIds st := by
  by_cases hen : st.config.enabled = true
  · cases hp : alookup p st.activities with
    | none => rw [add_child_noop st p c (Or.inr (Or.inl hp))]
    | some pa =>
      cases hc : alookup c st.activities with
      | none => rw [add_child_noop st p c (Or.inr (Or.inr hc))]
      | some ca => exact addchild_histIds st hen hp hc
  · rw [add_child_noop st p c (Or.inl (bool_eq_false hen))]

theorem end_histIds_mem (st : MonitorState) {i : String} {a0 : Activity}
    (hwf : WF st) (hen : st.config.enabled = true)
    (hla : alookup i st.activities = some a0) (status : ActivityStatus)
    (md : Option Meta) (now : ℚ) :
    i ∈ histIds (end_activity st i status md now) := by
  have hi : i ≠ "" := wf_live_ne_empty hwf hla
  rw [end_activity_eq st hen hi hla status md now]
  show i ∈ (if (st.activities_history
        ++ [finalizeActivity a0 status md now]).length > st.config.max_history
      then pySliceLast (st.activities_history
        ++ [finalizeActivity a0 status md now]) st.config.max_history
      else st.activities_history
        ++ [finalizeActivity a0 status md now]).map Activity.id
  have hx : (finalizeActivity a0 status md now).id = i := by
    rw [finalize_id]
    exact (hwf.key_eq _ (alookup_eq_some_mem hla)).symm
  have hmem := List.mem_of_getLast?_eq_some
    (trim_getLast st.activities_history (finalizeActivity a0 status md now)
      st.config.max_history)
  rw [← hx]
  exact List.mem_map_of_mem Activity.id hmem

theorem end_histIds_cases (st : MonitorState) {j : String} {aj : Activity}
    (hwf : WF st) (hen : st.config.enabled = true) (hj : j ≠ "")
    (hla : alookup j st.activities = some aj) (status : ActivityStatus)
    (md : Option Meta) (now : ℚ) (x : String)
    (hx : x ∈ histIds (end_activity st j status md now)) :
    x ∈ histIds st ∨ x = j := by
  rw [end_activity_eq st hen hj hla status md now] at hx
  have hx2 : x ∈ (st.activities_history
      ++ [finalizeActivity aj status md now]).map Activity.id :=
    ((trim_suffix (st.activities_history
      ++ [finalizeActivity aj status md now])
      st.config.max_history).sublist.map Activity.id).subset hx
  rw [List.map_append] at hx2
  rcases List.mem_append.mp hx2 with h | h
  · exact Or.inl h
  · right
    have hxid : x = (finalizeActivity aj status md now).id := by simpa using h
    rw [hxid, finalize_id]
    exact (hwf.key_eq _ (alookup_eq_some_mem hla)).symm

/-- C1 (amended): for every reachable (well-formed) state: an id is never in
both the live set and the history; while the history is strictly below the
configured cap, every operation keeps each stored id in one of the two
locations and never removes an id from history (once the cap forces
eviction, the oldest history ids are in neither — the counterexample); and
the live-to-history transition happens exactly once, at the `end_activity`
call on that id — the call that assigns its terminal status, with the store
enabled: every other operation keeps a live id live and out of history, that
end call removes it from the live set and appends it to history (it survives
any cap trim as the tail), and an id that has left the live set never
becomes live again, because the id counter only grows. -/
theorem C1_exactly_one_location (st : MonitorState) (op : MonOp) (i : String)
    (status2 : ActivityStatus) (md2 : Option Meta) (now2 : ℚ)
    (hwf : WF st) :
    WF (applyOp st op)
    ∧ st.nextId ≤ (applyOp st op).nextId
    ∧ ¬(i ∈ liveIds (applyOp st op) ∧ i ∈ histIds (applyOp st op))
    ∧ (st.activities_history.length < st.config.max_history →
        (i ∈ liveIds st ∨ i ∈ histIds st) →
        (i ∈ liveIds (applyOp st op) ∨ i ∈ histIds (applyOp st op)))
    ∧ (st.activities_history.length < st.config.max_history →
        i ∈ histIds st → i ∈ histIds (applyOp st op))
    ∧ (i ∈ liveIds st →
        (∀ status md now, op ≠ MonOp.opEnd i status md now) →
        i ∈ liveIds (applyOp st op) ∧ i ∉ histIds (applyOp st op))
    ∧ (i ∈ liveIds st → st.config.enabled = true →
        i ∉ liveIds (end_activity st i status2 md2 now2)
        ∧ i ∈ histIds (end_activity st i status2 md2 now2))
    ∧ (i ∉ liveIds st → (∃ k, k < st.nextId ∧ i = genId k) →
        i ∉ liveIds (applyOp st op)) := by
  have hwf2 := wf_applyOp st hwf op
  have hdisj_old : ∀ x, x ∈ liveIds st → x ∈ histIds st → False :=
    fun x hx1 hx2 => List.disjoint_of_nodup_append hwf.nodup hx1 hx2
  have hpres : st.activities_history.length < st.config.max_history →
      (((i ∈ liveIds st ∨ i ∈ histIds st) →
        (i ∈ liveIds (applyOp st op) ∨ i ∈ histIds (applyOp st op)))
      ∧ (i ∈ histIds st → i ∈ histIds (applyOp st op))) := by
    intro hcap
    cases op with
    | opStart ty name md pid now =>
      by_cases hen : st.config.enabled = true
      · have hl := start_liveIds st hen ty name md pid now
        have hh := start_histIds st hen ty name md pid now
        simp only [applyOp]
        constructor
        · intro h
          rcases h with h | h
          · left
            rw [hl]
            exact List.mem_append.mpr (Or.inl h)
          · right
            rw [hh]
            exact h
        · intro h
          rw [hh]
          exact h
      · have hs : (start_activity st ty name md pid now).2 = st := by
          rw [start_activity_disabled st (bool_eq_false hen)]
        simp only [applyOp, hs]
        exact ⟨fun h => h, fun h => h⟩
    | opEnd e status md now =>
      by_cases hen : st.config.enabled = true
      · by_cases he : e = ""
        · have hs : end_activity st e status md now = st :=
            end_activity_noop st e status md now (Or.inr (Or.inl he))
          simp only [applyOp, hs]
          exact ⟨fun h => h, fun h => h⟩
        · cases hle : alookup e st.activities with
          | none =>
            have hs : end_activity st e status md now = st :=
              end_activity_noop st e status md now (Or.inr (Or.inr hle))
            simp only [applyOp, hs]
            exact ⟨fun h => h, fun h => h⟩
          | some a0 =>
            have hl := end_liveIds st hen he hle status md now
            have hh := end_histIds st hen he hle status md now hwf hcap
            simp only [applyOp]
            constructor
            · intro h
              rcases h with h | h
              · by_cases hie : i = e
                · right
                  rw [hh]
                  exact List.mem_append.mpr (Or.inr (by simp [hie]))
                · left
                  rw [hl]
                  exact List.mem_filter.mpr ⟨h, by simp [hie]⟩
              · right
                rw [hh]
                exact List.mem_append.mpr (Or.inl h)
            · intro h
              rw [hh]
              exact List.mem_append.mpr (Or.inl h)
      · have hs : end_activity st e status md now = st :=
          end_activity_noop st e status md now (Or.inl (bool_eq_false hen))
        simp only [applyOp, hs]
        exact ⟨fun h => h, fun h => h⟩
    | opAddChild p c =>
      simp only [applyOp]
      rw [addchild_liveIds_all st p c, addchild_histIds_all st p c]
      exact ⟨fun h => h, fun h => h⟩
    | opUpdateMetrics agent mu =>
      have hl := update_liveIds st agent mu
      have hh := update_histIds st agent mu
      simp only [applyOp]
      rw [hl, hh]
      exact ⟨fun h => h, fun h => h⟩
  refine ⟨hwf2, applyOp_nextId_mono st op, ?_, fun hcap h => (hpres hcap).1 h,
    fun hcap h => (hpres hcap).2 h, ?_, ?_, ?_⟩
  · rintro ⟨h1, h2⟩
    exact List.disjoint_of_nodup_append hwf2.nodup h1 h2
  · intro hlive hne
    have hnh : i ∉ histIds st := fun h => hdisj_old i hlive h
    cases op with
    | opStart ty name md pid now =>
      simp only [applyOp]
      by_cases hen : st.config.enabled = true
      · rw [start_liveIds st hen ty name md pid now,
          start_histIds st hen ty name md pid now]
        exact ⟨List.mem_append.mpr (Or.inl hlive), hnh⟩
      · rw [start_activity_disabled st (bool_eq_false hen)]
        exact ⟨hlive, hnh⟩
    | opEnd j status md now =>
      simp only [applyOp]
      have hji : j ≠ i := by
        intro h
        exact hne status md now (by rw [h])
      have hij : i ≠ j := fun h => hji h.symm
      by_cases hen : st.config.enabled = true
      · by_cases hj : j = ""
        · rw [end_activity_noop st j status md now (Or.inr (Or.inl hj))]
          exact ⟨hlive, hnh⟩
        · cases hla : alookup j st.activities with
          | none =>
            rw [end_activity_noop st j status md now (Or.inr (Or.inr hla))]
            exact ⟨hlive, hnh⟩
          | some aj =>
            constructor
            · rw [end_liveIds st hen hj hla status md now]
              exact List.mem_filter.mpr ⟨hlive, by simp [hij]⟩
            · intro hmem
              rcases end_histIds_cases st hwf hen hj hla status md now i hmem
                with h | h
              · exact hnh h
              · exact hij h
      · rw [end_activity_noop st j status md now (Or.inl (bool_eq_false hen))]
        exact ⟨hlive, hnh⟩
    | opAddChild p c =>
      simp only [applyOp]
      rw [addchild_liveIds_all st p c, addchild_histIds_all st p c]
      exact ⟨hlive, hnh⟩
    | opUpdateMetrics agent mu =>
      simp only [applyOp]
      rw [update_liveIds st agent mu, update_histIds st agent mu]
      exact ⟨hlive, hnh⟩
  · intro hlive hen
    have hsome : (alookup i st.activities).isSome = true :=
      (alookup_isSome_iff i st.activities).mpr hlive
    cases hla : alookup i st.activities with
    | none =>
      rw [hla] at hsome
      simp at hsome
    | some a0 =>
      have hi : i ≠ "" := wf_live_ne_empty hwf hla
      constructor
      · rw [end_liveIds st hen hi hla status2 md2 now2]
        intro hmem
        have h2 := (List.mem_filter.mp hmem).2
        simp at h2
      · exact end_histIds_mem st hwf hen hla status2 md2 now2
  · intro hnl hgen
    obtain ⟨k, hk, hik⟩ := hgen
    cases op with
    | opStart ty name md pid now =>
      simp only [applyOp]
      by_cases hen : st.config.enabled = true
      · rw [start_liveIds st hen ty name md pid now]
        intro hmem
        rcases List.mem_append.mp hmem with h | h
        · exact hnl h
        · have hgen2 : i = genId st.nextId := by simpa using h
          rw [hik] at hgen2
          have := genId_inj hgen2
          omega
      · rw [start_activity_disabled st (bool_eq_false hen)]
        exact hnl
    | opEnd j status md now =>
      simp only [applyOp]
      exact fun hmem => hnl (end_liveIds_subset st j status md now i hmem)
    | opAddChild p c =>
      simp only [applyOp]
      rw [addchild_liveIds_all st p c]
      exact hnl
    | opUpdateMetrics agent mu =>
      simp only [applyOp]
      rw [update_liveIds st agent mu]
      exact hnl

/-- Witness for C1 (amended): a store holding one live activity (id
`genId 0`), exercised with a metrics update (not an end on that id) as the
operation and a completed end as the transition call. -/
theorem C1_exactly_one_location_witness :
    WF (applyOp startedState (MonOp.opUpdateMetrics "a" {}))
    ∧ startedState.nextId
        ≤ (applyOp startedState (MonOp.opUpdateMetrics "a" {})).nextId
    ∧ ¬(genId 0 ∈ liveIds (applyOp startedState (MonOp.opUpdateMetrics "a" {}))
        ∧ genId 0 ∈ histIds (applyOp startedState (MonOp.opUpdateMetrics "a" {})))
    ∧ (startedState.activities_history.length
          < startedState.config.max_history →
        (genId 0 ∈ liveIds startedState ∨ genId 0 ∈ histIds startedState) →
        (genId 0 ∈ liveIds (applyOp startedState (MonOp.opUpdateMetrics "a" {}))
          ∨ genId 0 ∈ histIds (applyOp startedState
              (MonOp.opUpdateMetrics "a" {}))))
    ∧ (startedState.activities_history.length
          < startedState.config.max_history →
        genId 0 ∈ histIds startedState →
        genId 0 ∈ histIds (applyOp startedState (MonOp.opUpdateMetrics "a" {})))
    ∧ (genId 0 ∈ liveIds startedState →
        (∀ status md now, MonOp.opUpdateMetrics "a" {}
          ≠ MonOp.opEnd (genId 0) status md now) →
        genId 0 ∈ liveIds (applyOp startedState (MonOp.opUpdateMetrics "a" {}))
        ∧ genId 0 ∉ histIds (applyOp startedState
            (MonOp.opUpdateMetrics "a" {})))
    ∧ (genId 0 ∈ liveIds startedState →
        startedState.config.enabled = true →
        genId 0 ∉ liveIds (end_activity startedState (genId 0)
            ActivityStatus.completed none 1)
        ∧ genId 0 ∈ histIds (end_activity startedState (genId 0)
            ActivityStatus.completed none 1))
    ∧ (genId 0 ∉ liveIds startedState →
        (∃ k, k < startedState.nextId ∧ genId 0 = genId k) →
        genId 0 ∉ liveIds (applyOp startedState
            (MonOp.opUpdateMetrics "a" {}))) :=
  C1_exactly_one_location startedState (MonOp.opUpdateMetrics "a" {}) (genId 0)
    ActivityStatus.completed none 1
    (wf_start (initState {}) (wf_initState {}) ActivityType.tool_execution
      "t" [] none 0)

/-! ### Bounded history over start/end rounds -/

theorem sessionActivities_length (n : Nat) (specs : List SessionSpec) :
    (sessionActivities n specs).length = specs.length := by
  induction specs generalizing n with
  | nil => rfl
  | cons s rest ih =>
    simp [sessionActivities, ih]

theorem runSessions_invariant (specs : List SessionSpec) (st : MonitorState)
    (hen : st.config.enabled = true) (hact : st.activities = [])
    (hC : 1 ≤ st.config.max_history)
    (hlen : st.activities_history.length ≤ st.config.max_history) :
    (runSessions st specs).config = st.config
    ∧ (runSessions st specs).activities = []
    ∧ (runSessions st specs).activities_history
        = (st.activities_history ++ sessionActivities st.nextId specs).drop
            ((st.activities_history ++ sessionActivities st.nextId specs).length
              - st.config.max_history) := by
  induction specs generalizing st with
  | nil =>
    refine ⟨rfl, hact, ?_⟩
    have h0 : st.activities_history.length - st.config.max_history = 0 := by
      omega
    simp [runSessions, sessionActivities, h0]
  | cons s rest ih =>
    have hstart := start_activity_eq st hen s.ty s.name [] none s.t0
    have hid1 : (start_activity st s.ty s.name [] none s.t0).1
        = genId st.nextId := by
      rw [hstart]
    have hst1acts : (start_activity st s.ty s.name [] none s.t0).2.activities
        = [(genId st.nextId, startedActivity st.nextId s.ty s.name [] none s.t0)] := by
      rw [hstart]
      show st.activities ++ _ = _
      rw [hact]
      rfl
    have hst1en : (start_activity st s.ty s.name [] none s.t0).2.config.enabled
        = true := by
      rw [hstart]
      exact hen
    have hst1hist : (start_activity st s.ty s.name [] none s.t0).2.activities_history
        = st.activities_history := by
      rw [hstart]
    have hst1cfg : (start_activity st s.ty s.name [] none s.t0).2.config
        = st.config := by
      rw [hstart]
    have hst1nid : (start_activity st s.ty s.name [] none s.t0).2.nextId
        = st.nextId + 1 := by
      rw [hstart]
    have hlook : alookup (genId st.nextId)
        (start_activity st s.ty s.name [] none s.t0).2.activities
        = some (startedActivity st.nextId s.ty s.name [] none s.t0) := by
      rw [hst1acts]
      simp [alookup]
    have hend := end_activity_eq
      (start_activity st s.ty s.name [] none s.t0).2 hst1en
      (genId_ne_empty st.nextId) hlook s.status none s.t1
    have hfin : finalizeActivity
        (startedActivity st.nextId s.ty s.name [] none s.t0) s.status none s.t1
        = sessionActivity st.nextId s := rfl
    have hrun : runSession st s = end_activity
        (start_activity st s.ty s.name [] none s.t0).2
        (start_activity st s.ty s.name [] none s.t0).1 s.status none s.t1 := rfl
    have hs2cfg : (runSession st s).config = st.config := by
      rw [hrun, hid1, hend]
      exact hst1cfg
    have hs2acts : (runSession st s).activities = [] := by
      rw [hrun, hid1, hend]
      show ((start_activity st s.ty s.name [] none s.t0).2.activities.filter _) = []
      rw [hst1acts]
      simp
    have hs2hist : (runSession st s).activities_history
        = (st.activities_history ++ [sessionActivity st.nextId s]).drop
            ((st.activities_history ++ [sessionActivity st.nextId s]).length
              - st.config.max_history) := by
      rw [hrun, hid1, hend]
      show (if ((start_activity st s.ty s.name [] none s.t0).2.activities_history
            ++ [finalizeActivity (startedActivity st.nextId s.ty s.name [] none s.t0)
                  s.status none s.t1]).length
            > (start_activity st s.ty s.name [] none s.t0).2.config.max_history
          then pySliceLast _ (start_activity st s.ty s.name [] none s.t0).2.config.max_history
          else _) = _
      rw [hfin, hst1hist, hst1cfg]
      exact trim_eq_drop _ hC
    have hs2nid : (runSession st s).nextId = st.nextId + 1 := by
      rw [hrun, hid1, hend]
      exact hst1nid
    have hs2len : (runSession st s).activities_history.length
        ≤ (runSession st s).config.max_history := by
      rw [hs2hist, hs2cfg, List.length_drop]
      omega
    obtain ⟨ihcfg, ihacts, ihhist⟩ := ih (runSession st s)
      (by rw [hs2cfg]; exact hen) hs2acts
      (by rw [hs2cfg]; exact hC) hs2len
    have hfold : runSessions st (s :: rest) = runSessions (runSession st s) rest := rfl
    refine ⟨by rw [hfold, ihcfg, hs2cfg], by rw [hfold]; exact ihacts, ?_⟩
    rw [hfold, ihhist, hs2hist, hs2nid, hs2cfg]
    have hcomp := drop_last_append
      (st.activities_history ++ [sessionActivity st.nextId s])
      (sessionActivities (st.nextId + 1) rest) st.config.max_history
    rw [hcomp]
    have hassoc : (st.activities_history ++ [sessionActivity st.nextId s])
        ++ sessionActivities (st.nextId + 1) rest
        = st.activities_history ++ sessionActivities st.nextId (s :: rest) := by
      rw [List.append_assoc]
      rfl
    rw [hassoc]

/-- Counterexample to C3 as stated: with configured cap 0 the trim slice
`history[-0:]` is the whole list, so after one end call (N = 1 ≥ cap = 0)
the history holds 1 entry, not the promised 0. -/
theorem C3_counterexample :
    c3state.config.max_history = 0
    ∧ c3state.activities_history.length = 1
    ∧ c3state.activities_history.length ≠ c3state.config.max_history := by
  refine ⟨rfl, rfl, ?_⟩
  intro h
  rw [show c3state.activities_history.length = 1 from rfl,
    show c3state.config.max_history = 0 from rfl] at h
  omega

/-- C3 (amended): for every positive history cap and every sequence of
N ≥ cap start/end rounds on an enabled fresh store, the final history is
exactly the last `cap` finalized activities in end-call order (the oldest
were evicted first), so its length is exactly the cap. -/
theorem C3_bounded_history (cfg : VisualizationConfig)
    (specs : List SessionSpec) (hen : cfg.enabled = true)
    (hC : 1 ≤ cfg.max_history) (hN : cfg.max_history ≤ specs.length) :
    (runSessions (initState cfg) specs).activities_history
      = (sessionActivities 0 specs).drop (specs.length - cfg.max_history)
    ∧ (runSessions (initState cfg) specs).activities_history.length
        = cfg.max_history := by
  obtain ⟨hcfg, hacts, hhist⟩ := runSessions_invariant specs (initState cfg)
    hen rfl hC (by simp [initState])
  have h1 : (runSessions (initState cfg) specs).activities_history
      = (sessionActivities 0 specs).drop
          ((sessionActivities 0 specs).length - cfg.max_history) := by
    simpa [initState] using hhist
  refine ⟨?_, ?_⟩
  · rw [h1, sessionActivities_length]
  · rw [h1, List.length_drop, sessionActivities_length]
    omega

/-- Witness for C3 (amended): cap 2, three start/end rounds. -/
theorem C3_bounded_history_witness :
    (runSessions (initState { max_history := 2 })
        [⟨ActivityType.tool_execution, "a", 0, 1, ActivityStatus.completed⟩,
         ⟨ActivityType.llm_call, "b", 1, 2, ActivityStatus.failed⟩,
         ⟨ActivityType.file_operation, "c", 2, 3, ActivityStatus.cancelled⟩]).activities_history
      = (sessionActivities 0
          [⟨ActivityType.tool_execution, "a", 0, 1, ActivityStatus.completed⟩,
           ⟨ActivityType.llm_call, "b", 1, 2, ActivityStatus.failed⟩,
           ⟨ActivityType.file_operation, "c", 2, 3, ActivityStatus.cancelled⟩]).drop
          (([⟨ActivityType.tool_execution, "a", 0, 1, ActivityStatus.completed⟩,
             ⟨ActivityType.llm_call, "b", 1, 2, ActivityStatus.failed⟩,
             ⟨ActivityType.file_operation, "c", 2, 3,
               ActivityStatus.cancelled⟩] : List SessionSpec).length - 2)
    ∧ (runSessions (initState { max_history := 2 })
        [⟨ActivityType.tool_execution, "a", 0, 1, ActivityStatus.completed⟩,
         ⟨ActivityType.llm_call, "b", 1, 2, ActivityStatus.failed⟩,
         ⟨ActivityType.file_operation, "c", 2, 3,
           ActivityStatus.cancelled⟩]).activities_history.length = 2 :=
  C3_bounded_history { max_history := 2 }
    [⟨ActivityType.tool_execution, "a", 0, 1, ActivityStatus.completed⟩,
     ⟨ActivityType.llm_call, "b", 1, 2, ActivityStatus.failed⟩,
     ⟨ActivityType.file_operation, "c", 2, 3, ActivityStatus.cancelled⟩]
    rfl (by decide) (by decide)

/-! ### Moving average over paired sample/increment sequences -/

theorem C8_counterexample :
    (alookup "a" c8state.agent_metrics).map AgentMetrics.average_response_time
      = some 8
    ∧ (8 : ℚ) ≠ 2 := by
  constructor
  · norm_num [c8state, update_agent_metrics, entityBefore, stepAgentMetrics,
      freshAgentMetrics, aset, alookup, initState]
  · norm_num

theorem step_paired_counts (m0 : AgentMetrics) (b : Bool) (s : ℚ) :
    (stepAgentMetrics m0 (pairedUpdate b s)).tasks_completed
        + (stepAgentMetrics m0 (pairedUpdate b s)).tasks_failed
      = m0.tasks_completed + m0.tasks_failed + 1 := by
  rw [step_tasks_completed, step_tasks_failed]
  cases b <;> simp [pairedUpdate] <;> omega

theorem step_paired_average (m0 : AgentMetrics) (b : Bool) (s : ℚ) :
    (stepAgentMetrics m0 (pairedUpdate b s)).average_response_time
      = (m0.average_response_time
            * ((m0.tasks_completed + m0.tasks_failed : Nat) : ℚ) + s)
          / (((m0.tasks_completed + m0.tasks_failed : Nat) : ℚ) + 1) := by
  rw [step_average m0 (pairedUpdate b s) s rfl]
  have htot : postIncrementTotal m0 (pairedUpdate b s)
      = m0.tasks_completed + m0.tasks_failed + 1 := by
    unfold postIncrementTotal
    cases b <;> simp [pairedUpdate] <;> omega
  rw [htot, if_neg (by omega)]
  push_cast
  ring_nf

theorem runPaired_invariant (agent : String) (calls : List (Bool × ℚ))
    (st : MonitorState) (hen : st.config.enabled = true)
    (hm : st.config.enable_agent_metrics = true) (m : AgentMetrics)
    (hl : alookup agent st.agent_metrics = some m)
    (hk : 0 < m.tasks_completed + m.tasks_failed) :
    ∃ m2, alookup agent (runPairedUpdates st agent calls).agent_metrics
        = some m2
      ∧ m2.tasks_completed + m2.tasks_failed
          = m.tasks_completed + m.tasks_failed + calls.length
      ∧ m2.average_response_time
            * ((m.tasks_completed + m.tasks_failed + calls.length : Nat) : ℚ)
          = m.average_response_time
              * ((m.tasks_completed + m.tasks_failed : Nat) : ℚ)
            + (calls.map Prod.snd).sum := by
  induction calls generalizing st m with
  | nil =>
    refine ⟨m, ?_, by simp, by simp⟩
    simpa [runPairedUpdates] using hl
  | cons c rest ih =>
    have hupd := update_agent_metrics_eq st agent (pairedUpdate c.1 c.2) hen hm
    have hstep : runPairedUpdates st agent (c :: rest)
        = runPairedUpdates (update_agent_metrics st agent (pairedUpdate c.1 c.2))
            agent rest := rfl
    have hcfg : (update_agent_metrics st agent (pairedUpdate c.1 c.2)).config
        = st.config := update_config st agent _
    have hEB : entityBefore st agent = m := by
      unfold entityBefore
      rw [hl]
    have hl1 : alookup agent
        (update_agent_metrics st agent (pairedUpdate c.1 c.2)).agent_metrics
        = some (stepAgentMetrics m (pairedUpdate c.1 c.2)) := by
      rw [hupd]
      show alookup agent (aset st.agent_metrics agent
        (stepAgentMetrics (entityBefore st agent) (pairedUpdate c.1 c.2))) = _
      rw [hEB]
      exact alookup_aset_self _ _ _
    have hcounts := step_paired_counts m c.1 c.2
    have havg := step_paired_average m c.1 c.2
    obtain ⟨m2, hm2l, hm2c, hm2a⟩ := ih
      (update_agent_metrics st agent (pairedUpdate c.1 c.2))
      (by rw [hcfg]; exact hen) (by rw [hcfg]; exact hm)
      (stepAgentMetrics m (pairedUpdate c.1 c.2)) hl1 (by omega)
    refine ⟨m2, ?_, ?_, ?_⟩
    · rw [hstep]
      exact hm2l
    · rw [hm2c, hcounts]
      simp only [List.length_cons]
      omega
    · have hKnz : ((m.tasks_completed : ℚ) + (m.tasks_failed : ℚ) + 1) ≠ 0 := by
        positivity
      rw [hcounts, havg] at hm2a
      simp only [List.length_cons, List.map_cons, List.sum_cons] at hm2a ⊢
      push_cast at hm2a ⊢
      rw [div_mul_cancel₀ _ hKnz] at hm2a
      linear_combination hm2a

/-- C8 (amended): for an entity with no prior record, if every call carries a
response-time sample together with exactly one completed/failed increment
(and there are no other interleaved calls for that entity), the final
`average_response_time` is the arithmetic mean of the samples, and the task
counters total the number of calls. The original claim fails because a
sample arriving without an increment still rewrites the average (see the
counterexample). -/
theorem C8_paired_mean (st : MonitorState) (agent : String)
    (calls : List (Bool × ℚ)) (hen : st.config.enabled = true)
    (hm : st.config.enable_agent_metrics = true)
    (habsent : alookup agent st.agent_metrics = none)
    (hne : calls ≠ []) :
    ∃ m2, alookup agent (runPairedUpdates st agent calls).agent_metrics
        = some m2
      ∧ m2.tasks_completed + m2.tasks_failed = calls.length
      ∧ m2.average_response_time
          = (calls.map Prod.snd).sum / (calls.length : ℚ) := by
  cases calls with
  | nil => exact absurd rfl hne
  | cons c rest =>
    have hupd := update_agent_metrics_eq st agent (pairedUpdate c.1 c.2) hen hm
    have hstep : runPairedUpdates st agent (c :: rest)
        = runPairedUpdates (update_agent_metrics st agent (pairedUpdate c.1 c.2))
            agent rest := rfl
    have hcfg : (update_agent_metrics st agent (pairedUpdate c.1 c.2)).config
        = st.config := update_config st agent _
    have hEB : entityBefore st agent = freshAgentMetrics agent := by
      unfold entityBefore
      rw [habsent]
    have hl1 : alookup agent
        (update_agent_metrics st agent (pairedUpdate c.1 c.2)).agent_metrics
        = some (stepAgentMetrics (freshAgentMetrics agent)
            (pairedUpdate c.1 c.2)) := by
      rw [hupd]
      show alookup agent (aset st.agent_metrics agent
        (stepAgentMetrics (entityBefore st agent) (pairedUpdate c.1 c.2))) = _
      rw [hEB]
      exact alookup_aset_self _ _ _
    have hcounts : (stepAgentMetrics (freshAgentMetrics agent)
          (pairedUpdate c.1 c.2)).tasks_completed
        + (stepAgentMetrics (freshAgentMetrics agent)
          (pairedUpdate c.1 c.2)).tasks_failed = 1 := by
      rw [step_paired_counts]
      rfl
    have havg : (stepAgentMetrics (freshAgentMetrics agent)
          (pairedUpdate c.1 c.2)).average_response_time = c.2 := by
      rw [step_paired_average]
      simp [freshAgentMetrics]
    obtain ⟨m2, hm2l, hm2c, hm2a⟩ := runPaired_invariant agent rest
      (update_agent_metrics st agent (pairedUpdate c.1 c.2))
      (by rw [hcfg]; exact hen) (by rw [hcfg]; exact hm)
      (stepAgentMetrics (freshAgentMetrics agent) (pairedUpdate c.1 c.2))
      hl1 (by omega)
    refine ⟨m2, ?_, ?_, ?_⟩
    · rw [hstep]
      exact hm2l
    · rw [hm2c, hcounts]
      simp only [List.length_cons]
      omega
    · rw [hcounts, havg] at hm2a
      have hlen_nz : ((rest.length : ℚ) + 1) ≠ 0 := by positivity
      simp only [List.length_cons, List.map_cons, List.sum_cons] at hm2a ⊢
      rw [eq_div_iff (by push_cast; exact hlen_nz)]
      push_cast at hm2a ⊢
      linear_combination hm2a

/-- Witness for C8 (amended): two calls, each a sample with one increment. -/
theorem C8_paired_mean_witness :
    ∃ m2, alookup "a" (runPairedUpdates (initState {}) "a"
        [(true, 3), (false, 5)]).agent_metrics = some m2
      ∧ m2.tasks_completed + m2.tasks_failed
          = ([(true, 3), (false, 5)] : List (Bool × ℚ)).length
      ∧ m2.average_response_time
          = (([(true, 3), (false, 5)] : List (Bool × ℚ)).map Prod.snd).sum
            / ((([(true, 3), (false, 5)] : List (Bool × ℚ)).length : Nat) : ℚ) :=
  C8_paired_mean (initState {}) "a" [(true, 3), (false, 5)] rfl rfl rfl
    (by decide)
